import Mathlib

/-
Verification of the file_sorting_hat move-execution engine.

Shallow embedding of `src/file_sorting_hat/move_objects.py` and
`src/file_sorting_hat/__init__.py` over an explicit filesystem state.
A filesystem is a finite association list from absolute paths (component
lists) to nodes (regular file with content, zip archive file, directory).
Python exceptions become an explicit error type threaded through each
operation: every operation returns the filesystem (and job state) as
mutated up to the point where the exception was raised, mirroring
Python's in-place mutation semantics.
-/

namespace FileSortingHat

abbrev Path := List String

/-- A filesystem node: a regular file with string content, a zip archive
file (its entries are relative paths with `none` marking a directory
entry), or a directory. -/
inductive Node where
  | file (content : String)
  | zipf (entries : List (Path × Option String))
  | dir
deriving DecidableEq, Repr

/-- A filesystem: association list from absolute path to node. -/
abbrev Fs := List (Path × Node)

/-- Python exception classes that the engine raises or catches.
`isOSError` below records the Python class hierarchy. -/
inductive Err where
  | fileNotFoundError
  | fileExistsError
  | isADirectoryError
  | notADirectoryError
  | dirNotEmptyError
  | invalidArgument
  | shutilError
  | valueError
  | typeError
  | attributeError
  | keyboardInterrupt
deriving DecidableEq, Repr

/-- Which exception classes are subclasses of Python `OSError`
(`shutil.Error` subclasses `OSError`). -/
def Err.isOSError : Err → Bool
  | .fileNotFoundError => true
  | .fileExistsError => true
  | .isADirectoryError => true
  | .notADirectoryError => true
  | .dirNotEmptyError => true
  | .invalidArgument => true
  | .shutilError => true
  | _ => false

/-- `pathlib.PurePath.parent`. -/
def parent (p : Path) : Path := p.dropLast

/-- `pathlib.PurePath.name` (last component). -/
def lastName (p : Path) : String := p.getLastD ""

/-- Index of the rightmost dot of a name, if any. -/
def rfindDotIdx (cs : List Char) : Option Nat :=
  match cs.reverse.findIdx? (· == '.') with
  | none => none
  | some k => some (cs.length - 1 - k)

/-- `pathlib.PurePath.suffix` of a file name: the final extension, empty
when the rightmost dot is leading or trailing. -/
def nameSuffix (name : String) : String :=
  let cs := name.toList
  match rfindDotIdx cs with
  | some i => if 0 < i ∧ i < cs.length - 1 then String.mk (cs.drop i) else ""
  | none => ""

/-- `pathlib.PurePath.stem` of a file name: the name minus `nameSuffix`. -/
def nameStem (name : String) : String :=
  let cs := name.toList
  match rfindDotIdx cs with
  | some i => if 0 < i ∧ i < cs.length - 1 then String.mk (cs.take i) else name
  | none => name

namespace Fs

/-- Node stored at a path, if any. -/
def lookup : Fs → Path → Option Node
  | [], _ => none
  | e :: rest, p => if e.1 = p then some e.2 else lookup rest p

/-- `Path.exists()`. -/
def pathExists (fs : Fs) (p : Path) : Bool := (lookup fs p).isSome

/-- `Path.is_file()`: regular files and zip archives are files. -/
def isFile (fs : Fs) (p : Path) : Bool :=
  match lookup fs p with
  | some (.file _) => true
  | some (.zipf _) => true
  | _ => false

/-- `Path.is_dir()`. -/
def isDir (fs : Fs) (p : Path) : Bool :=
  match lookup fs p with
  | some .dir => true
  | _ => false

/-- Remove every entry whose path is exactly `p`. -/
def removeExact : Fs → Path → Fs
  | [], _ => []
  | e :: rest, p =>
    if e.1 = p then removeExact rest p else e :: removeExact rest p

/-- Remove every entry at or below `p`. -/
def removeTree : Fs → Path → Fs
  | [], _ => []
  | e :: rest, p =>
    if p.isPrefixOf e.1 then removeTree rest p else e :: removeTree rest p

/-- Move the whole subtree rooted at `src` to `dst`, dropping any entry
previously stored exactly at `dst` (rename-over-file semantics). -/
def renameTree : Fs → Path → Path → Fs
  | [], _, _ => []
  | e :: rest, src, dst =>
    if src.isPrefixOf e.1 then
      (dst ++ e.1.drop src.length, e.2) :: renameTree rest src dst
    else if e.1 = dst then renameTree rest src dst
    else e :: renameTree rest src dst

/-- Does `p` have a strict descendant entry? -/
def hasChild : Fs → Path → Bool
  | [], _ => false
  | e :: rest, p =>
    if p.isPrefixOf e.1 ∧ e.1 ≠ p then true else hasChild rest p

/-- Immediate children of `p`, in filesystem listing order
(`Path.iterdir`). -/
def childrenOf : Fs → Path → List Path
  | [], _ => []
  | e :: rest, p =>
    if p.isPrefixOf e.1 ∧ e.1.length = p.length + 1 then
      e.1 :: childrenOf rest p
    else childrenOf rest p

/-- `Path.unlink()`. Removing a directory this way raises
`IsADirectoryError` (Linux), a missing path `FileNotFoundError`. -/
def unlink (fs : Fs) (p : Path) : Fs × Option Err :=
  if isFile fs p then (removeExact fs p, none)
  else if isDir fs p then (fs, some .isADirectoryError)
  else (fs, some .fileNotFoundError)

/-- `Path.rmdir()`: only removes an empty directory. -/
def rmdir (fs : Fs) (p : Path) : Fs × Option Err :=
  if isDir fs p then
    if hasChild fs p then (fs, some .dirNotEmptyError)
    else (removeExact fs p, none)
  else if isFile fs p then (fs, some .notADirectoryError)
  else (fs, some .fileNotFoundError)

/-- `shutil.rmtree`: recursively removes a directory. -/
def rmtree (fs : Fs) (p : Path) : Fs × Option Err :=
  if isDir fs p then (removeTree fs p, none)
  else if isFile fs p then (fs, some .notADirectoryError)
  else (fs, some .fileNotFoundError)

/-- `Path.mkdir()` (no parents, no exist_ok). -/
def mkdir (fs : Fs) (p : Path) : Fs × Option Err :=
  if pathExists fs p then (fs, some .fileExistsError)
  else if isDir fs (parent p) then ((p, .dir) :: fs, none)
  else (fs, some .fileNotFoundError)

/-- `os.rename` on a single filesystem.  Renaming a path to itself is a
no-op; renaming a directory into itself fails (EINVAL); the destination
parent must be an existing directory; an existing destination file is
replaced when the source is a file, an existing empty destination
directory when the source is a directory. -/
def osRename (fs : Fs) (src dst : Path) : Fs × Option Err :=
  if ¬ pathExists fs src then (fs, some .fileNotFoundError)
  else if src = dst then (fs, none)
  else if src.isPrefixOf dst then (fs, some .invalidArgument)
  else if ¬ isDir fs (parent dst) then (fs, some .fileNotFoundError)
  else
    match lookup fs dst with
    | none => (renameTree fs src dst, none)
    | some .dir =>
      if isFile fs src then (fs, some .isADirectoryError)
      else if hasChild fs dst then (fs, some .dirNotEmptyError)
      else (renameTree fs src dst, none)
    | some _ =>
      if isFile fs src then (renameTree fs src dst, none)
      else (fs, some .notADirectoryError)

/-- `shutil.move`.  When `dst` is an existing directory the source is
moved inside it under its own name, failing when that name is taken
(on one filesystem the copy fallback never succeeds where `os.rename`
fails, so the fallback is not modelled separately). -/
def shutilMove (fs : Fs) (src dst : Path) : Fs × Option Err :=
  if isDir fs dst then
    if src = dst then osRename fs src dst
    else
      let realDst := dst ++ [lastName src]
      if pathExists fs realDst then (fs, some .shutilError)
      else osRename fs src realDst
  else osRename fs src dst

end Fs

/-- Sequence two filesystem actions, stopping at the first raised
exception (the state mutated so far is kept, as in Python). -/
def seqFs (r : Fs × Option Err) (k : Fs → Fs × Option Err) : Fs × Option Err :=
  match r with
  | (fs, some e) => (fs, some e)
  | (fs, none) => k fs

/-- `move_objects.Video` state: `source`, `directory` (destination root),
`destination` (absent until `setDestination`). -/
structure VideoJob where
  source : Path
  directory : Path
  destination : Option Path := none
deriving DecidableEq, Repr

/-- `move_objects.Other` state; `unzippedDirectory` is set by
`_tryUnzip` after lazy extraction. -/
structure OtherJob where
  source : Path
  directory : Path
  destination : Option Path := none
  unzippedDirectory : Option Path := none
deriving DecidableEq, Repr

namespace Video

/-- `Video.validate`: the source must exist and be a regular file. -/
def validate (fs : Fs) (j : VideoJob) : Option Err :=
  if ¬ Fs.pathExists fs j.source then some .fileNotFoundError
  else if ¬ Fs.isFile fs j.source then some .typeError
  else none

/-- `Video.delete`: validates, then unlinks the source if it exists. -/
def delete (fs : Fs) (j : VideoJob) : Fs × Option Err :=
  match validate fs j with
  | some e => (fs, some e)
  | none =>
    if Fs.pathExists fs j.source then Fs.unlink fs j.source else (fs, none)

/-- `Video.overwrite`: validates, checks the destination is set
(`_destinationSafety` raises `ValueError`), unlinks the destination if
it is a file, then `shutil.move`s the source to the destination. -/
def overwrite (fs : Fs) (j : VideoJob) : Fs × Option Err :=
  match validate fs j with
  | some e => (fs, some e)
  | none =>
    match j.destination with
    | none => (fs, some .valueError)
    | some d =>
      seqFs (if Fs.isFile fs d then Fs.unlink fs d else (fs, none))
        (fun fs1 => Fs.shutilMove fs1 j.source d)

/-- `Video.move`: raises `FileExistsError` when the destination exists
as a file (accessing an unset `destination` attribute raises
`AttributeError`), otherwise delegates to `overwrite`. -/
def move (fs : Fs) (j : VideoJob) : Fs × Option Err :=
  match j.destination with
  | none => (fs, some .attributeError)
  | some d =>
    if Fs.isFile fs d then (fs, some .fileExistsError)
    else overwrite fs j

end Video

/-- Modelled from the spec: `fs_helpers.unzip` (the `fs_helpers` module
is imported by the sources but absent from the repository) extracts the
archive at `src` into the directory `target`, creating `target` and
placing the archive's entries under it. -/
def unzipFs (fs : Fs) (src target : Path) : Fs :=
  match Fs.lookup fs src with
  | some (.zipf entries) =>
    (target, .dir) ::
      entries.map (fun e =>
        (target ++ e.1, match e.2 with
          | some c => Node.file c
          | none => Node.dir)) ++ fs
  | _ => (target, .dir) :: fs

namespace Other

/-- `Other.isZip`: the source is a file whose suffix is ".zip". -/
def isZip (fs : Fs) (j : OtherJob) : Bool :=
  Fs.isFile fs j.source && (nameSuffix (lastName j.source) == ".zip")

/-- `Other.validate`: the source must exist and be a directory or a zip
file. -/
def validate (fs : Fs) (j : OtherJob) : Option Err :=
  if ¬ Fs.pathExists fs j.source then some .fileNotFoundError
  else if ¬ Fs.isDir fs j.source ∧ ¬ isZip fs j then some .typeError
  else none

/-- `Other._tryUnzip`: for a zip source, lazily extract to
`source.parent / source.stem` (skipped when that directory already
exists) and record it in `unzippedDirectory`. -/
def tryUnzip (fs : Fs) (j : OtherJob) : Fs × OtherJob :=
  if ¬ isZip fs j then (fs, j)
  else
    let extracted := parent j.source ++ [nameStem (lastName j.source)]
    let fs1 := if Fs.isDir fs extracted then fs
               else unzipFs fs j.source extracted
    (fs1, { j with unzippedDirectory := some extracted })

/-- `Other._cleanup`: rmdir the extracted directory and unlink the
source zip when present, then rmdir the source directory. -/
def cleanup (fs : Fs) (j : OtherJob) : Fs × Option Err :=
  seqFs
    (match j.unzippedDirectory with
     | some u =>
       seqFs (if Fs.isDir fs u then Fs.rmdir fs u else (fs, none))
         (fun fs1 =>
           if Fs.isFile fs1 j.source then Fs.unlink fs1 j.source
           else (fs1, none))
     | none => (fs, none))
    (fun fs2 =>
      if Fs.isDir fs2 j.source then Fs.rmdir fs2 j.source else (fs2, none))

/-- `Other.delete`: validates, removes the source (recursively when a
directory), then removes the extracted directory when recorded. -/
def delete (fs : Fs) (j : OtherJob) : Fs × Option Err :=
  match validate fs j with
  | some e => (fs, some e)
  | none =>
    seqFs
      (if Fs.isDir fs j.source then Fs.rmtree fs j.source
       else if Fs.isFile fs j.source then Fs.unlink fs j.source
       else (fs, none))
      (fun fs1 =>
        match j.unzippedDirectory with
        | some u => if Fs.isDir fs1 u then Fs.rmtree fs1 u else (fs1, none)
        | none => (fs1, none))

/-- Move each listed child into the destination directory, one
`shutil.move` per child. -/
def moveChildren (fs : Fs) (cs : List Path) (d : Path) : Fs × Option Err :=
  match cs with
  | [] => (fs, none)
  | c :: rest =>
    seqFs (Fs.shutilMove fs c d) (fun fs1 => moveChildren fs1 rest d)

/-- `Other.overwrite`: validate, destination-safety check, lazy unzip,
recursively remove an existing destination directory; when the
(extracted-or-original) source directory's parent equals the
destination's parent, `shutil.move(self.source, self.destination.parent)`
and return; otherwise mkdir the destination, move every immediate child
of the source tree into it, then `_cleanup`. -/
def overwrite (fs : Fs) (j : OtherJob) : Fs × OtherJob × Option Err :=
  match validate fs j with
  | some e => (fs, j, some e)
  | none =>
    match j.destination with
    | none => (fs, j, some .valueError)
    | some d =>
      let (fs1, j1) := tryUnzip fs j
      match (if Fs.isDir fs1 d then Fs.rmtree fs1 d else (fs1, none)) with
      | (fs2, some e) => (fs2, j1, some e)
      | (fs2, none) =>
        let srcDir := j1.unzippedDirectory.getD j1.source
        if parent srcDir = parent d then
          match Fs.shutilMove fs2 j1.source (parent d) with
          | (fs3, e) => (fs3, j1, e)
        else
          match Fs.mkdir fs2 d with
          | (fs3, some e) => (fs3, j1, some e)
          | (fs3, none) =>
            match moveChildren fs3 (Fs.childrenOf fs3 srcDir) d with
            | (fs4, some e) => (fs4, j1, some e)
            | (fs4, none) =>
              match cleanup fs4 j1 with
              | (fs5, e) => (fs5, j1, e)

/-- `Other.move`: raises `IsADirectoryError` when the destination exists
as a directory, otherwise delegates to `overwrite`. -/
def move (fs : Fs) (j : OtherJob) : Fs × OtherJob × Option Err :=
  match j.destination with
  | none => (fs, j, some .attributeError)
  | some d =>
    if Fs.isDir fs d then (fs, j, some .isADirectoryError)
    else overwrite fs j

end Other

/-- A constructed job: one of the two `MoveObject` variants. -/
inductive Job where
  | video (v : VideoJob)
  | other (o : OtherJob)
deriving DecidableEq, Repr

namespace Job

def validate (fs : Fs) : Job → Option Err
  | .video v => Video.validate fs v
  | .other o => Other.validate fs o

def move (fs : Fs) : Job → Fs × Job × Option Err
  | .video v =>
    match Video.move fs v with
    | (fs1, e) => (fs1, .video v, e)
  | .other o =>
    match Other.move fs o with
    | (fs1, o1, e) => (fs1, .other o1, e)

def delete (fs : Fs) : Job → Fs × Job × Option Err
  | .video v =>
    match Video.delete fs v with
    | (fs1, e) => (fs1, .video v, e)
  | .other o =>
    match Other.delete fs o with
    | (fs1, e) => (fs1, .other o, e)

def overwrite (fs : Fs) : Job → Fs × Job × Option Err
  | .video v =>
    match Video.overwrite fs v with
    | (fs1, e) => (fs1, .video v, e)
  | .other o =>
    match Other.overwrite fs o with
    | (fs1, o1, e) => (fs1, .other o1, e)

end Job

/-- `move_objects.MoveStatus`. -/
inductive MoveStatus where
  | success
  | duplicate
  | deleteFailure
  | otherError
  | deleted
  | overwritten
  | processed
deriving DecidableEq, Repr

/-- `move_objects.recoverableErrors`. -/
def recoverableErrors : List MoveStatus := [.duplicate, .deleteFailure]

/-- `move_objects.goodStates`. -/
def goodStates : List MoveStatus := [.success, .deleted, .overwritten]

/-- `move_objects.MoveResult`: a job, a status, an optional stored
exception. -/
structure MoveResult where
  file : Job
  status : MoveStatus
  exception : Option Err := none
deriving DecidableEq, Repr

namespace MoveResult

/-- `MoveResult.__clear`: set the status and drop the stored
exception. -/
def clear (r : MoveResult) (s : MoveStatus) : MoveResult :=
  { r with status := s, exception := none }

/-- `MoveResult.delete`: run the job's delete; on success clear to
`DELETED`, otherwise the exception propagates and the result is left
as it was. -/
def delete (fs : Fs) (r : MoveResult) : Fs × MoveResult × Option Err :=
  match Job.delete fs r.file with
  | (fs1, j1, none) => (fs1, clear { r with file := j1 } .deleted, none)
  | (fs1, j1, some e) => (fs1, { r with file := j1 }, some e)

/-- `MoveResult.overwrite`: run the job's overwrite; on success clear to
`OVERWRITTEN`. -/
def overwrite (fs : Fs) (r : MoveResult) : Fs × MoveResult × Option Err :=
  match Job.overwrite fs r.file with
  | (fs1, j1, none) => (fs1, clear { r with file := j1 } .overwritten, none)
  | (fs1, j1, some e) => (fs1, { r with file := j1 }, some e)

/-- `MoveResult.move`: run the job's move; on success clear to
`SUCCESS`. -/
def move (fs : Fs) (r : MoveResult) : Fs × MoveResult × Option Err :=
  match Job.move fs r.file with
  | (fs1, j1, none) => (fs1, clear { r with file := j1 } .success, none)
  | (fs1, j1, some e) => (fs1, { r with file := j1 }, some e)

end MoveResult

/-- The status `moveFiles` assigns to a failed `move()`:
`(FileExistsError, IsADirectoryError)` are caught as `DUPLICATE`, any
other `OSError` as `DELETE_FAILURE`, any other exception as
`OTHER_ERROR` (`KeyboardInterrupt` is handled before this point; it is
neither an `OSError` nor one of the two conflict classes, so the clause
order matches the Python `except` chain). -/
def classifyMoveError (e : Err) : MoveStatus :=
  if e = .fileExistsError ∨ e = .isADirectoryError then .duplicate
  else if e.isOSError then .deleteFailure
  else .otherError

/-- `__init__.moveFiles`: attempt `move()` on every job, producing one
classified `MoveResult` each; `KeyboardInterrupt` stops the batch,
leaving the remaining jobs without a result. -/
def moveFiles (fs : Fs) : List Job → Fs × List MoveResult
  | [] => (fs, [])
  | j :: jobs =>
    let m := Job.move fs j
    match m.2.2 with
    | none =>
      let p := moveFiles m.1 jobs
      (p.1, { file := m.2.1, status := .success, exception := none } :: p.2)
    | some e =>
      if e = .keyboardInterrupt then (m.1, [])
      else
        let p := moveFiles m.1 jobs
        (p.1, { file := m.2.1, status := classifyMoveError e,
                exception := some e } :: p.2)

/-- `__init__.reportResults`: skip already-`PROCESSED` results, print
(collect) the rest, and mark every printed result that is not in the
recoverable set as `PROCESSED` (the stored exception is not touched).
Returns the updated list and the list of displayed results. -/
def reportResults : List MoveResult → List MoveResult × List MoveResult
  | [] => ([], [])
  | r :: rest =>
    let p := reportResults rest
    if r.status = .processed then (r :: p.1, p.2)
    else if r.status ∈ recoverableErrors then (r :: p.1, r :: p.2)
    else ({ r with status := .processed } :: p.1, r :: p.2)

/-- `__init__.recoverableErrorsExist`. -/
def recoverableErrorsExist (rs : List MoveResult) : Bool :=
  rs.any (fun r => r.status ∈ recoverableErrors)

/-- The resolution policies gathered by `__init__.getPolicies`:
`duplicates` is "d"/"o" when set (ignore leaves it unset), `inUse` is
"y" when set. -/
structure Policies where
  duplicates : Option String := none
  inUse : Option String := none

/-- The `except` chain of `__init__.fixErrors`: `FileExistsError` back
to `DUPLICATE`, any other `OSError` to `DELETE_FAILURE`, anything else
to `OTHER_ERROR`; the caught exception is stored. -/
def fixApplyError (r : MoveResult) (e : Err) : MoveResult :=
  if e = .fileExistsError then { r with status := .duplicate, exception := some e }
  else if e.isOSError then { r with status := .deleteFailure, exception := some e }
  else { r with status := .otherError, exception := some e }

/-- One iteration of the `__init__.fixErrors` loop: apply the policy
action matching the result's status, catching any raised exception. -/
def fixOne (fs : Fs) (ps : Policies) (r : MoveResult) : Fs × MoveResult :=
  match r.status with
  | .duplicate =>
    if ps.duplicates = some "d" then
      let q := MoveResult.delete fs r
      match q.2.2 with
      | none => (q.1, q.2.1)
      | some e => (q.1, fixApplyError q.2.1 e)
    else if ps.duplicates = some "o" then
      let q := MoveResult.overwrite fs r
      match q.2.2 with
      | none => (q.1, q.2.1)
      | some e => (q.1, fixApplyError q.2.1 e)
    else (fs, r)
  | .deleteFailure =>
    if ps.inUse = some "y" then
      let q := MoveResult.delete fs r
      match q.2.2 with
      | none => (q.1, q.2.1)
      | some e => (q.1, fixApplyError q.2.1 e)
    else (fs, r)
  | _ => (fs, r)

/-- `__init__.fixErrors` over the whole result list. -/
def fixErrors (fs : Fs) (ps : Policies) : List MoveResult → Fs × List MoveResult
  | [] => (fs, [])
  | r :: rest =>
    let q := fixOne fs ps r
    let p := fixErrors q.1 ps rest
    (p.1, q.2 :: p.2)

/-- A per-argument construction environment for `__init__.buildObjects`:
`make` is `factory.makeMoveObject`, `buildOptions` stands for the
interactive destination building (per spec section 5 every prompt is
replaced by an injected decision source behind the same synchronous
contract). -/
structure BuildEnv where
  make : String → Job
  buildOptions : Fs → Job → Job × Option Err

/-- `__init__.buildObjects`: construct a job per argument.  `ValueError`
and `TypeError` drop the argument and continue; `KeyboardInterrupt`
drops the remaining arguments; any other exception is not caught and
aborts the batch (returned as the second component). -/
def buildObjects (fs : Fs) (env : BuildEnv) : List String → List Job × Option Err
  | [] => ([], none)
  | a :: rest =>
    let j := env.make a
    match Job.validate fs j with
    | some e =>
      if e = .valueError ∨ e = .typeError then buildObjects fs env rest
      else if e = .keyboardInterrupt then ([], none)
      else ([], some e)
    | none =>
      let b := env.buildOptions fs j
      match b.2 with
      | none =>
        let p := buildObjects fs env rest
        (b.1 :: p.1, p.2)
      | some e =>
        if e = .valueError ∨ e = .typeError then buildObjects fs env rest
        else if e = .keyboardInterrupt then ([], none)
        else ([], some e)

/-- Split a character list at the first occurrence of the closing
bracket, returning the interior and the remainder. -/
def splitAtClose : List Char → Option (List Char × List Char)
  | [] => none
  | c :: cs =>
    if c = ']' then some ([], cs)
    else
      match splitAtClose cs with
      | some (i, a) => some (c :: i, a)
      | none => none

/-- Trim leading and trailing spaces of a character list. -/
def trimSpaces (l : List Char) : List Char :=
  ((l.dropWhile (· == ' ')).reverse.dropWhile (· == ' ')).reverse

/-- Split a character list on commas. -/
def splitOnComma : List Char → List (List Char)
  | [] => [[]]
  | c :: cs =>
    let r := splitOnComma cs
    if c = ',' then [] :: r
    else
      match r with
      | g :: gs => (c :: g) :: gs
      | [] => [[c]]

/-- Modelled from the spec: tag normalization.  The interior of the
bracket prefix is split on commas, each piece is trimmed and its
internal whitespace replaced by underscores, and the pieces are joined
with single commas, so that "one tag, two tag" becomes
"one_tag,two_tag". -/
def normalizeTag (interior : List Char) : List Char :=
  List.intercalate [','] ((splitOnComma interior).map
    (fun t => (trimSpaces t).map (fun c => if c = ' ' then '_' else c)))

/-- Modelled from the spec: `MoveObject._extractTag` (referenced by the
repository's tests but absent from the sources).  A filename beginning
with a bracketed prefix yields the normalized interior as the tag; a
filename with no bracket prefix yields no tag. -/
def extractTag (filename : String) : Option String :=
  match filename.toList with
  | '[' :: rest =>
    match splitAtClose rest with
    | some (i, _) => some (String.mk (normalizeTag i))
    | none => none
  | _ => none

/-- Modelled from the spec: `MoveObject._extractName` (referenced by the
repository's tests but absent from the sources).  The base name drops
the bracket prefix and any separator characters following it; a
filename that is only a bracket prefix with no trailing name raises a
construction error (`ValueError`). -/
def extractName (filename : String) : Except Err String :=
  match filename.toList with
  | '[' :: rest =>
    match splitAtClose rest with
    | some (_, after) =>
      let nm := after.dropWhile (fun c => c == ' ' || c == '_' || c == '-')
      if nm = [] then .error .valueError else .ok (String.mk nm)
    | none => .ok filename
  | _ => .ok filename

/-- Well-formedness of a filesystem snapshot: no duplicate paths, and
nothing is stored strictly below a non-directory entry. -/
def Fs.WF (fs : Fs) : Prop :=
  (fs.map Prod.fst).Nodup ∧
  ∀ e ∈ fs, ∀ e2 ∈ fs, e.1 ≠ e2.1 → e.1.isPrefixOf e2.1 = true → e.2 = Node.dir

/-- Concrete filesystem: a source directory `base/src` (holding one
file) and a destination `base/dst` sharing the same parent `base`. -/
def fsSameParent : Fs :=
  [([], .dir), (["base"], .dir), (["base", "src"], .dir),
   (["base", "src", "f.txt"], .file "x")]

/-- Composite job moving `base/src` to the sibling name `base/dst`. -/
def jSameParent : OtherJob :=
  { source := ["base", "src"], directory := ["base"],
    destination := some ["base", "dst"] }

/-- Concrete filesystem: a source file `s` and a directory `d`. -/
def fsDestDir : Fs := [([], .dir), (["d"], .dir), (["s"], .file "data")]

/-- Video job whose destination `d` already exists as a directory. -/
def jDestDir : VideoJob :=
  { source := ["s"], directory := ["r"], destination := some ["d"] }

/-- Concrete filesystem holding a file `f`, a directory `d`, a source
file `s` and a source directory `sd`. -/
def fsConflict : Fs :=
  [([], .dir), (["f"], .file "a"), (["d"], .dir), (["s"], .file "s"),
   (["sd"], .dir)]

/-- Video job whose destination `f` already exists as a file. -/
def vConflict : VideoJob :=
  { source := ["s"], directory := ["r"], destination := some ["f"] }

/-- Composite job whose destination `d` already exists as a directory. -/
def oConflict : OtherJob :=
  { source := ["sd"], directory := ["r"], destination := some ["d"] }

/-- Concrete filesystem: a source file `s` and a destination root
`lib`. -/
def fsLib : Fs := [([], .dir), (["s"], .file "data"), (["lib"], .dir)]

/-- Video job moving `s` to the fresh destination `lib/out`. -/
def jLib : VideoJob :=
  { source := ["s"], directory := ["lib"], destination := some ["lib", "out"] }

/-- Construction environment whose factory makes a Video job per
argument and whose interactive destination building always succeeds. -/
def envMissing : BuildEnv :=
  { make := fun a => .video { source := [a], directory := ["lib"] },
    buildOptions := fun _ j => (j, none) }

/-- Concrete filesystem for the construction batch: the argument `x`
does not exist, the argument `y` does. -/
def fsMissing : Fs := [([], .dir), (["lib"], .dir), (["y"], .file "c")]

/-- Video job with destination equal to its source `s`. -/
def jSelf : VideoJob :=
  { source := ["s"], directory := ["r"], destination := some ["s"] }

/-- Concrete filesystem holding only the file `s`. -/
def fsSelf : Fs := [([], .dir), (["s"], .file "data")]

/-- A result in state `OTHER_ERROR` carrying a stored exception. -/
def rStale : MoveResult :=
  { file := .video jLib, status := .otherError,
    exception := some .invalidArgument }

/-- Video job for the argument `x` of `fsMissing` (source absent). -/
def vMissing : VideoJob := { source := ["x"], directory := ["lib"] }

/-- The filesystem of `fsLib` after the successful move of `s` to
`lib/out`. -/
def fsLibMoved : Fs :=
  [([], .dir), (["lib", "out"], .file "data"), (["lib"], .dir)]

end FileSortingHat
namespace FileSortingHat

theorem isPrefixOf_self (l : List String) : l.isPrefixOf l = true := by
  induction l with
  | nil => rfl
  | cons a t ih => simp [List.isPrefixOf, ih]

theorem isFile_pathExists (fs : Fs) (p : Path) (h : Fs.isFile fs p = true) :
    Fs.pathExists fs p = true := by
  unfold Fs.isFile at h
  unfold Fs.pathExists
  cases hlk : Fs.lookup fs p with
  | none => rw [hlk] at h; simp at h
  | some n => simp

theorem isFile_lookup (fs : Fs) (p : Path) (h : Fs.isFile fs p = true) :
    ∃ n, Fs.lookup fs p = some n ∧ n ≠ Node.dir := by
  unfold Fs.isFile at h
  cases hlk : Fs.lookup fs p with
  | none => rw [hlk] at h; simp at h
  | some n =>
    refine ⟨n, rfl, ?_⟩
    rw [hlk] at h
    cases n <;> simp_all

theorem lookup_mem (fs : Fs) (p : Path) (n : Node)
    (h : Fs.lookup fs p = some n) : (p, n) ∈ fs := by
  induction fs with
  | nil => simp [Fs.lookup] at h
  | cons e rest ih =>
    by_cases hh : e.1 = p
    · rw [Fs.lookup, if_pos hh] at h
      injection h with h2
      have he : e = (p, n) := by
        calc e = (e.1, e.2) := rfl
          _ = (p, n) := by rw [hh, h2]
      rw [← he]
      exact List.mem_cons_self e rest
    · rw [Fs.lookup, if_neg hh] at h
      exact List.mem_cons_of_mem _ (ih h)

theorem lookup_removeExact_self (fs : Fs) (p : Path) :
    Fs.lookup (Fs.removeExact fs p) p = none := by
  induction fs with
  | nil => rfl
  | cons e rest ih =>
    by_cases h : e.1 = p
    · rw [Fs.removeExact, if_pos h]; exact ih
    · rw [Fs.removeExact, if_neg h, Fs.lookup, if_neg h]; exact ih

theorem lookup_none_removeExact (fs : Fs) (p q : Path)
    (h : Fs.lookup fs q = none) :
    Fs.lookup (Fs.removeExact fs p) q = none := by
  induction fs with
  | nil => rfl
  | cons e rest ih =>
    by_cases hq : e.1 = q
    · rw [Fs.lookup, if_pos hq] at h; cases h
    · rw [Fs.lookup, if_neg hq] at h
      by_cases hp : e.1 = p
      · rw [Fs.removeExact, if_pos hp]; exact ih h
      · rw [Fs.removeExact, if_neg hp, Fs.lookup, if_neg hq]; exact ih h

theorem lookup_removeTree_self (fs : Fs) (p : Path) :
    Fs.lookup (Fs.removeTree fs p) p = none := by
  induction fs with
  | nil => rfl
  | cons e rest ih =>
    by_cases h : p.isPrefixOf e.1 = true
    · rw [Fs.removeTree, if_pos h]; exact ih
    · have hne : e.1 ≠ p := by
        intro hh; rw [hh] at h; exact h (isPrefixOf_self p)
      rw [Fs.removeTree, if_neg h, Fs.lookup, if_neg hne]; exact ih

theorem lookup_none_removeTree (fs : Fs) (p q : Path)
    (h : Fs.lookup fs q = none) :
    Fs.lookup (Fs.removeTree fs p) q = none := by
  induction fs with
  | nil => rfl
  | cons e rest ih =>
    by_cases hq : e.1 = q
    · rw [Fs.lookup, if_pos hq] at h; cases h
    · rw [Fs.lookup, if_neg hq] at h
      by_cases hp : p.isPrefixOf e.1 = true
      · rw [Fs.removeTree, if_pos hp]; exact ih h
      · rw [Fs.removeTree, if_neg hp, Fs.lookup, if_neg hq]; exact ih h

theorem lookup_renameTree_dst (fs : Fs) (src dst : Path) (n : Node)
    (hfind : Fs.lookup fs src = some n)
    (hnodesc : ∀ e ∈ fs, e.1 ≠ src → src.isPrefixOf e.1 = false)
    (_hnd : src ≠ dst) :
    Fs.lookup (Fs.renameTree fs src dst) dst = some n := by
  induction fs with
  | nil => simp [Fs.lookup] at hfind
  | cons e rest ih =>
    by_cases h : e.1 = src
    · have hn : e.2 = n := by
        rw [Fs.lookup, if_pos h] at hfind; injection hfind
      have hp : src.isPrefixOf e.1 = true := by
        rw [h]; exact isPrefixOf_self src
      rw [Fs.renameTree, if_pos hp, h, Fs.lookup]
      simp [List.drop_length, hn]
    · have hp : src.isPrefixOf e.1 = false := hnodesc e (by simp) h
      have hfind' : Fs.lookup rest src = some n := by
        rw [Fs.lookup, if_neg h] at hfind; exact hfind
      have hnodesc' : ∀ e2 ∈ rest, e2.1 ≠ src → src.isPrefixOf e2.1 = false :=
        fun e2 he2 hne2 => hnodesc e2 (List.mem_cons_of_mem _ he2) hne2
      by_cases hd : e.1 = dst
      · rw [Fs.renameTree, if_neg (by simp [hp]), if_pos hd]
        exact ih hfind' hnodesc'
      · rw [Fs.renameTree, if_neg (by simp [hp]), if_neg hd, Fs.lookup, if_neg hd]
        exact ih hfind' hnodesc'

theorem lookup_renameTree_src (fs : Fs) (src dst : Path)
    (hnodesc : ∀ e ∈ fs, e.1 ≠ src → src.isPrefixOf e.1 = false)
    (hnd : src ≠ dst) :
    Fs.lookup (Fs.renameTree fs src dst) src = none := by
  induction fs with
  | nil => rfl
  | cons e rest ih =>
    have hnodesc' : ∀ e2 ∈ rest, e2.1 ≠ src → src.isPrefixOf e2.1 = false :=
      fun e2 he2 hne2 => hnodesc e2 (List.mem_cons_of_mem _ he2) hne2
    by_cases h : e.1 = src
    · have hp : src.isPrefixOf e.1 = true := by
        rw [h]; exact isPrefixOf_self src
      rw [Fs.renameTree, if_pos hp, h, Fs.lookup]
      rw [List.drop_length, List.append_nil]
      rw [if_neg (Ne.symm hnd)]
      exact ih hnodesc'
    · have hp : src.isPrefixOf e.1 = false := hnodesc e (by simp) h
      by_cases hd : e.1 = dst
      · rw [Fs.renameTree, if_neg (by simp [hp]), if_pos hd]
        exact ih hnodesc'
      · rw [Fs.renameTree, if_neg (by simp [hp]), if_neg hd, Fs.lookup, if_neg h]
        exact ih hnodesc'

end FileSortingHat
namespace FileSortingHat

theorem osRename_ok (fs fs1 : Fs) (src dst : Path)
    (h : Fs.osRename fs src dst = (fs1, none)) (hne : src ≠ dst) :
    fs1 = Fs.renameTree fs src dst ∧ src.isPrefixOf dst = false := by
  unfold Fs.osRename at h
  by_cases hex : Fs.pathExists fs src = true
  · rw [if_neg (not_not_intro hex), if_neg hne] at h
    by_cases hpre : src.isPrefixOf dst = true
    · rw [if_pos hpre] at h
      simp at h
    · have hpre' : src.isPrefixOf dst = false := by
        cases hpv : src.isPrefixOf dst
        · rfl
        · exact absurd hpv hpre
      rw [if_neg hpre] at h
      by_cases hpd : Fs.isDir fs (parent dst) = true
      · rw [if_neg (not_not_intro hpd)] at h
        split at h
        · injection h with h1 _
          exact ⟨h1.symm, hpre'⟩
        · by_cases hsf : Fs.isFile fs src = true
          · rw [if_pos hsf] at h
            simp at h
          · rw [if_neg hsf] at h
            by_cases hch : Fs.hasChild fs dst = true
            · rw [if_pos hch] at h
              simp at h
            · rw [if_neg hch] at h
              injection h with h1 _
              exact ⟨h1.symm, hpre'⟩
        · by_cases hsf : Fs.isFile fs src = true
          · rw [if_pos hsf] at h
            injection h with h1 _
            exact ⟨h1.symm, hpre'⟩
          · rw [if_neg hsf] at h
            simp at h
      · rw [if_pos hpd] at h
        simp at h
  · rw [if_pos hex] at h
    simp at h

theorem validateV_none (fs : Fs) (j : VideoJob)
    (h : Video.validate fs j = none) : Fs.isFile fs j.source = true := by
  unfold Video.validate at h
  by_cases hex : Fs.pathExists fs j.source = true
  · rw [if_neg (not_not_intro hex)] at h
    by_cases hf : Fs.isFile fs j.source = true
    · exact hf
    · rw [if_pos hf] at h
      simp at h
  · rw [if_pos hex] at h
    simp at h

theorem validateO_none (fs : Fs) (j : OtherJob)
    (h : Other.validate fs j = none) :
    Fs.pathExists fs j.source = true ∧
      (Fs.isDir fs j.source = true ∨ Fs.isFile fs j.source = true) := by
  unfold Other.validate at h
  by_cases hex : Fs.pathExists fs j.source = true
  · rw [if_neg (not_not_intro hex)] at h
    refine ⟨hex, ?_⟩
    by_cases hd : Fs.isDir fs j.source = true
    · exact Or.inl hd
    · by_cases hz : Other.isZip fs j = true
      · right
        unfold Other.isZip at hz
        simp at hz
        exact hz.1
      · rw [if_pos ⟨hd, hz⟩] at h
        simp at h
  · rw [if_pos hex] at h
    simp at h

end FileSortingHat
namespace FileSortingHat

theorem bool_not_true {b : Bool} (h : ¬ b = true) : b = false := by
  cases b
  · rfl
  · exact absurd rfl h

theorem reportResults_map_status (rs : List MoveResult) :
    (reportResults rs).1.map MoveResult.status =
      rs.map (fun r =>
        if r.status ∈ recoverableErrors then r.status else .processed) := by
  induction rs with
  | nil => rfl
  | cons r rest ih =>
    by_cases h1 : r.status = .processed
    · have h2 : r.status ∉ recoverableErrors := by
        rw [h1]; decide
      simp [reportResults, h1, h2, ih]
    · by_cases h2 : r.status ∈ recoverableErrors
      · simp [reportResults, h1, h2, ih]
      · simp [reportResults, h1, h2, ih]

theorem reportResults_disp (rs : List MoveResult) :
    ∀ r ∈ (reportResults rs).2, r.status ≠ .processed := by
  induction rs with
  | nil => intro r hr; simp [reportResults] at hr
  | cons r rest ih =>
    intro r2 hr2
    by_cases h1 : r.status = .processed
    · rw [show (reportResults (r :: rest)).2 = (reportResults rest).2 by
        simp [reportResults, h1]] at hr2
      exact ih r2 hr2
    · by_cases h2 : r.status ∈ recoverableErrors
      · rw [show (reportResults (r :: rest)).2 = r :: (reportResults rest).2 by
          simp [reportResults, h1, h2]] at hr2
        rcases List.mem_cons.mp hr2 with hr2 | hr2
        · subst hr2; exact h1
        · exact ih r2 hr2
      · rw [show (reportResults (r :: rest)).2 = r :: (reportResults rest).2 by
          simp [reportResults, h1, h2]] at hr2
        rcases List.mem_cons.mp hr2 with hr2 | hr2
        · subst hr2; exact h1
        · exact ih r2 hr2

theorem fixOne_processed (fs : Fs) (ps : Policies) (r : MoveResult)
    (h : r.status = .processed) : ((fixOne fs ps r).2).status = .processed := by
  unfold fixOne
  simp [h]

theorem fixErrors_processed (fs : Fs) (ps : Policies) (rs : List MoveResult) :
    List.Forall₂ (fun r r2 => r.status = .processed → r2.status = .processed)
      rs (fixErrors fs ps rs).2 := by
  induction rs generalizing fs with
  | nil => simp [fixErrors]
  | cons r rest ih =>
    simp only [fixErrors]
    exact List.Forall₂.cons (fun h => fixOne_processed fs ps r h) (ih _)

/-- C1: for a composite (directory/archive) job whose source directory
and destination share the same parent, `overwrite()` is specified to
perform a simple rename; the code instead calls
`shutil.move(self.source, self.destination.parent)`, which always
raises `shutil.Error` because `destination.parent / source.name` is the
source itself and already exists.  Evaluated at a concrete such job:
the call raises and neither renames the source nor creates the
destination. -/
theorem c1_rename_branch_raises :
    Other.overwrite fsSameParent jSameParent =
      (fsSameParent, jSameParent, some .shutilError) := by decide

/-- C2 counterexample: a SingleFile job whose destination pre-exists as
a directory.  `move()` does not fail at all — it moves the source into
the directory — and the filesystem is mutated, contradicting the claim
that any pre-existing destination makes `move()` fail with a
destination conflict and leave the filesystem unchanged. -/
theorem c2_counterexample :
    Fs.pathExists fsDestDir ["d"] = true ∧
    Video.move fsDestDir jDestDir =
      ([([], Node.dir), (["d"], Node.dir), (["d", "s"], Node.file "data")],
        none) ∧
    [([], Node.dir), (["d"], Node.dir), (["d", "s"], Node.file "data")] ≠
      fsDestDir := by decide

/-- C2 amended: when the destination pre-exists with the variant's own
checked type — as a file for a SingleFile job, as a directory for a
composite job — `move()` fails immediately with the destination-conflict
error of that variant and the filesystem is unchanged. -/
theorem c2_amended (fs : Fs) (v : VideoJob) (o : OtherJob) (dv dod : Path)
    (hv : v.destination = some dv) (hvf : Fs.isFile fs dv = true)
    (ho : o.destination = some dod) (hod : Fs.isDir fs dod = true) :
    Video.move fs v = (fs, some .fileExistsError) ∧
    Other.move fs o = (fs, o, some .isADirectoryError) := by
  constructor
  · simp [Video.move, hv, hvf]
  · simp [Other.move, ho, hod]

/-- C2 amended, witness at a concrete job pair. -/
theorem c2_amended_witness :
    Video.move fsConflict vConflict = (fsConflict, some .fileExistsError) ∧
    Other.move fsConflict oConflict =
      (fsConflict, oConflict, some .isADirectoryError) :=
  c2_amended fsConflict vConflict oConflict ["f"] ["d"] rfl (by decide) rfl
    (by decide)

/-- C3: in the batch move phase the first attempted job's result status
is classified exactly as the claim states: a successful `move()` gives
`Success`; a destination-exists or is-a-directory failure gives
`Duplicate`; any other operating-system error gives `Busy`
(`DELETE_FAILURE`); any other exception gives `OtherError`. -/
theorem c3_classification (fs : Fs) (j : Job) (jobs : List Job) :
    ((Job.move fs j).2.2 = none →
      ((moveFiles fs (j :: jobs)).2.map MoveResult.status).head? =
        some .success) ∧
    (∀ e, (Job.move fs j).2.2 = some e → e ≠ .keyboardInterrupt →
      (((e = .fileExistsError ∨ e = .isADirectoryError) →
        ((moveFiles fs (j :: jobs)).2.map MoveResult.status).head? =
          some .duplicate) ∧
       (e.isOSError = true → e ≠ .fileExistsError → e ≠ .isADirectoryError →
        ((moveFiles fs (j :: jobs)).2.map MoveResult.status).head? =
          some .deleteFailure) ∧
       (e.isOSError = false →
        ((moveFiles fs (j :: jobs)).2.map MoveResult.status).head? =
          some .otherError))) := by
  constructor
  · intro h
    simp [moveFiles, h]
  · intro e he hki
    have hmf : (moveFiles fs (j :: jobs)).2 =
        { file := (Job.move fs j).2.1, status := classifyMoveError e,
          exception := some e } :: (moveFiles (Job.move fs j).1 jobs).2 := by
      simp [moveFiles, he, hki]
    refine ⟨?_, ?_, ?_⟩
    · intro hd
      rw [hmf]
      simp [classifyMoveError, hd]
    · intro hos h1 h2
      rw [hmf]
      simp [classifyMoveError, h1, h2, hos]
    · intro hos
      have h1 : e ≠ Err.fileExistsError := by
        intro hh; rw [hh] at hos; simp [Err.isOSError] at hos
      have h2 : e ≠ Err.isADirectoryError := by
        intro hh; rw [hh] at hos; simp [Err.isOSError] at hos
      rw [hmf]
      simp [classifyMoveError, h1, h2, hos]

/-- C3, witness: a concrete successful move is classified `Success`. -/
theorem c3_classification_witness :
    ((moveFiles fsLib [Job.video jLib]).2.map MoveResult.status).head? =
      some MoveStatus.success :=
  (c3_classification fsLib (Job.video jLib) []).1 (by decide)

/-- C4: tag extraction during destination building (modelled from the
spec; the implementation is referenced only by the repository's tests):
a bracketed prefix yields its normalized interior as the tag, the base
name drops the prefix, a filename with no bracket prefix yields no tag,
and a bracket-only filename raises a construction error. -/
theorem c4_tag_extraction :
    extractTag "[a, b] name" = some "a,b" ∧
    extractName "[a, b] name" = .ok "name" ∧
    extractTag "name" = none ∧
    extractName "[one_tag]" = .error .valueError :=
  ⟨by decide, rfl, rfl, rfl⟩

/-- C5: a raw argument whose source path does not exist makes
`validate()` raise `FileNotFoundError`, which the construction loop's
`except (ValueError, TypeError)` does not catch: the whole batch aborts
and the following valid argument `y` is never constructed, contradicting
the claim that every construction failure only drops its own
argument. -/
theorem c5_missing_source_aborts :
    buildObjects fsMissing envMissing ["x", "y"] =
      ([], some .fileNotFoundError) := by decide

end FileSortingHat
namespace FileSortingHat

/-- C6 counterexample: a valid SingleFile job whose destination
pre-exists as a directory.  `move()` succeeds, but the destination path
then holds a directory — the content went to `d/s`, not to `d` — so
"destination exists with content identical to the source" fails. -/
theorem c6_counterexample :
    Video.move fsDestDir jDestDir =
      ([([], Node.dir), (["d"], Node.dir), (["d", "s"], Node.file "data")],
        none) ∧
    Fs.lookup
      [([], Node.dir), (["d"], Node.dir), (["d", "s"], Node.file "data")]
      ["d"] = some Node.dir := by decide

/-- C6 amended: on a well-formed filesystem, for every valid SingleFile
job whose `move()` succeeds and whose destination did not pre-exist as a
directory, the source is a file, the destination afterwards holds
exactly the node the source held, and the source path no longer
exists. -/
theorem c6_amended (fs fs1 : Fs) (j : VideoJob) (d : Path)
    (hwf : Fs.WF fs) (hd : j.destination = some d)
    (hdir : Fs.isDir fs d = false)
    (hmove : Video.move fs j = (fs1, none)) :
    Fs.isFile fs j.source = true ∧
    Fs.lookup fs1 d = Fs.lookup fs j.source ∧
    Fs.lookup fs1 j.source = none := by
  unfold Video.move at hmove
  split at hmove
  · next heq => rw [hd] at heq; cases heq
  · next x heq =>
    rw [hd] at heq
    injection heq with hx
    subst hx
    by_cases hdf : Fs.isFile fs d = true
    · rw [if_pos hdf] at hmove
      simp at hmove
    · rw [if_neg hdf] at hmove
      unfold Video.overwrite at hmove
      split at hmove
      · simp at hmove
      · next hval =>
        split at hmove
        · next heq2 => rw [hd] at heq2; cases heq2
        · next x2 heq2 =>
          rw [hd] at heq2
          injection heq2 with hx2
          subst hx2
          rw [if_neg hdf] at hmove
          simp only [seqFs] at hmove
          unfold Fs.shutilMove at hmove
          rw [if_neg (by simp [hdir])] at hmove
          have hf : Fs.isFile fs j.source = true := validateV_none fs j hval
          have hne : j.source ≠ d := by
            intro hh
            rw [hh] at hf
            exact hdf hf
          obtain ⟨hfs1, _⟩ := osRename_ok fs fs1 j.source d hmove hne
          obtain ⟨n, hlk, hnd⟩ := isFile_lookup fs j.source hf
          have hnodesc : ∀ e ∈ fs, e.1 ≠ j.source →
              (j.source).isPrefixOf e.1 = false := by
            intro e he hne2
            by_contra hc
            have hc2 : (j.source).isPrefixOf e.1 = true := by
              cases hcv : (j.source).isPrefixOf e.1
              · exact absurd hcv hc
              · rfl
            exact hnd (hwf.2 (j.source, n) (lookup_mem fs j.source n hlk) e he
              (Ne.symm hne2) hc2)
          refine ⟨hf, ?_, ?_⟩
          · rw [hfs1, hlk]
            exact lookup_renameTree_dst fs j.source d n hlk hnodesc hne
          · rw [hfs1]
            exact lookup_renameTree_src fs j.source d hnodesc hne

/-- C6 amended, witness: a concrete successful move of file `s` to the
fresh path `lib/out`. -/
theorem c6_amended_witness :
    Fs.isFile fsLib jLib.source = true ∧
    Fs.lookup fsLibMoved ["lib", "out"] = Fs.lookup fsLib jLib.source ∧
    Fs.lookup fsLibMoved jLib.source = none :=
  c6_amended fsLib fsLibMoved jLib ["lib", "out"]
    (by unfold Fs.WF; exact ⟨by decide, by decide⟩) rfl (by decide) (by decide)

/-- C7 counterexample: the report pass mutates a result's status
directly (`result.status = PROCESSED`) rather than through the result's
own delete/overwrite/move methods, and the stale diagnostic of the
`OTHER_ERROR` state survives that transition. -/
theorem c7_counterexample :
    (reportResults [rStale]).1.map (fun r => (r.status, r.exception)) =
      [(MoveStatus.processed, some Err.invalidArgument)] := by decide

/-- C7 amended: the result's own delete/overwrite/move methods do clear
the stored diagnostic on the transitions they perform, but the
orchestrator also mutates status directly: the report pass marks a
non-recoverable, non-processed result `Processed` via direct field
assignment, leaving the stored diagnostic untouched. -/
theorem c7_amended (fs : Fs) (r : MoveResult) :
    (∀ fs1 r1, MoveResult.delete fs r = (fs1, r1, none) →
      r1.status = .deleted ∧ r1.exception = none) ∧
    (∀ fs1 r1, MoveResult.overwrite fs r = (fs1, r1, none) →
      r1.status = .overwritten ∧ r1.exception = none) ∧
    (∀ fs1 r1, MoveResult.move fs r = (fs1, r1, none) →
      r1.status = .success ∧ r1.exception = none) ∧
    (r.status ∉ recoverableErrors → r.status ≠ .processed →
      (reportResults [r]).1 = [{ r with status := .processed }]) := by
  refine ⟨?_, ?_, ?_, ?_⟩
  · intro fs1 r1 h
    unfold MoveResult.delete at h
    split at h
    · injection h with _ h2
      injection h2 with h3 _
      rw [← h3]
      exact ⟨rfl, rfl⟩
    · simp at h
  · intro fs1 r1 h
    unfold MoveResult.overwrite at h
    split at h
    · injection h with _ h2
      injection h2 with h3 _
      rw [← h3]
      exact ⟨rfl, rfl⟩
    · simp at h
  · intro fs1 r1 h
    unfold MoveResult.move at h
    split at h
    · injection h with _ h2
      injection h2 with h3 _
      rw [← h3]
      exact ⟨rfl, rfl⟩
    · simp at h
  · intro h1 h2
    simp [reportResults, h1, h2]

/-- C7 amended, witness: applying the amended theorem at the concrete
stale result. -/
theorem c7_amended_witness :
    (reportResults [rStale]).1 = [{ rStale with status := .processed }] :=
  (c7_amended fsLib rStale).2.2.2 (by decide) (by decide)

/-- C8 counterexample: `delete()` on a SingleFile job whose source is
absent does fail — `validate()` raises `FileNotFoundError` before the
presence guard is reached — contradicting "does not fail when the
source is absent". -/
theorem c8_counterexample :
    Video.delete [([], Node.dir)] vMissing =
      ([([], Node.dir)], some .fileNotFoundError) := by decide

/-- C8 amended: `delete()` validates first, so a SingleFile delete
fails fast with `FileNotFoundError` when the source is absent;
on a valid job it removes the source file; a valid composite delete
removes the source (recursively when a directory) and any recorded
extracted temp directory, raising nothing. -/
theorem c8_amended (fs fsa : Fs) (v va : VideoJob) (o : OtherJob)
    (hv : Video.validate fs v = none)
    (ho : Other.validate fs o = none)
    (ha : Fs.pathExists fsa va.source = false) :
    (Video.delete fs v).2 = none ∧
    Fs.pathExists (Video.delete fs v).1 v.source = false ∧
    (Other.delete fs o).2 = none ∧
    Fs.pathExists (Other.delete fs o).1 o.source = false ∧
    (∀ u, o.unzippedDirectory = some u →
      Fs.isDir (Other.delete fs o).1 u = false) ∧
    Video.delete fsa va = (fsa, some .fileNotFoundError) := by
  have hf : Fs.isFile fs v.source = true := validateV_none fs v hv
  have hex : Fs.pathExists fs v.source = true := isFile_pathExists fs v.source hf
  have hvd : Video.delete fs v = (Fs.removeExact fs v.source, none) := by
    simp [Video.delete, hv, hex, Fs.unlink, hf]
  obtain ⟨hexo, hdo⟩ := validateO_none fs o ho
  have hstep : ∃ fsm,
      (if Fs.isDir fs o.source then Fs.rmtree fs o.source
       else if Fs.isFile fs o.source then Fs.unlink fs o.source
       else (fs, none)) = (fsm, none) ∧ Fs.lookup fsm o.source = none := by
    by_cases hd : Fs.isDir fs o.source = true
    · refine ⟨Fs.removeTree fs o.source, ?_, lookup_removeTree_self fs o.source⟩
      rw [if_pos hd]
      unfold Fs.rmtree
      rw [if_pos hd]
    · have hfo : Fs.isFile fs o.source = true := by
        rcases hdo with hdo | hdo
        · exact absurd hdo hd
        · exact hdo
      refine ⟨Fs.removeExact fs o.source, ?_,
        lookup_removeExact_self fs o.source⟩
      rw [if_neg hd, if_pos hfo]
      unfold Fs.unlink
      rw [if_pos hfo]
  obtain ⟨fsm, hact, hgone⟩ := hstep
  have hother : (Other.delete fs o).2 = none ∧
      Fs.pathExists (Other.delete fs o).1 o.source = false ∧
      (∀ u, o.unzippedDirectory = some u →
        Fs.isDir (Other.delete fs o).1 u = false) := by
    cases hu : o.unzippedDirectory with
    | none =>
      have hdel : Other.delete fs o = (fsm, none) := by
        unfold Other.delete
        rw [ho, hact, hu]
        rfl
      rw [hdel]
      refine ⟨rfl, by simp [Fs.pathExists, hgone], ?_⟩
      intro u hcontra
      cases hcontra
    | some u =>
      have hdel : Other.delete fs o =
          (if Fs.isDir fsm u = true then Fs.rmtree fsm u else (fsm, none)) := by
        unfold Other.delete
        rw [ho, hact, hu]
        rfl
      by_cases hdu : Fs.isDir fsm u = true
      · rw [if_pos hdu] at hdel
        unfold Fs.rmtree at hdel
        rw [if_pos hdu] at hdel
        rw [hdel]
        refine ⟨rfl, ?_, ?_⟩
        · simp [Fs.pathExists, lookup_none_removeTree fsm u o.source hgone]
        · intro u2 hu2
          injection hu2 with hu3
          subst hu3
          simp [Fs.isDir, lookup_removeTree_self]
      · rw [if_neg hdu] at hdel
        rw [hdel]
        refine ⟨rfl, by simp [Fs.pathExists, hgone], ?_⟩
        intro u2 hu2
        injection hu2 with hu3
        subst hu3
        exact bool_not_true hdu
  have hfail : Video.delete fsa va = (fsa, some .fileNotFoundError) := by
    have hvala : Video.validate fsa va = some .fileNotFoundError := by
      unfold Video.validate
      rw [if_pos (by simp [ha])]
    unfold Video.delete
    rw [hvala]
  exact ⟨by rw [hvd],
    by rw [hvd]; simp [Fs.pathExists, lookup_removeExact_self],
    hother.1, hother.2.1, hother.2.2, hfail⟩

/-- C8 amended, witness: a concrete valid video file `s`, a concrete
valid composite directory `sd`, and a concrete absent source `x`. -/
theorem c8_amended_witness :
    (Video.delete fsConflict vConflict).2 = none ∧
    Fs.pathExists (Video.delete fsConflict vConflict).1 vConflict.source =
      false ∧
    (Other.delete fsConflict oConflict).2 = none ∧
    Fs.pathExists (Other.delete fsConflict oConflict).1 oConflict.source =
      false ∧
    (∀ u, oConflict.unzippedDirectory = some u →
      Fs.isDir (Other.delete fsConflict oConflict).1 u = false) ∧
    Video.delete fsMissing vMissing =
      (fsMissing, some .fileNotFoundError) :=
  c8_amended fsConflict fsMissing vConflict vMissing oConflict
    (by decide) (by decide) (by decide)

/-- C9: reporting transitions every result whose status is not in the
recoverable set to `Processed` (in particular a `Processed` result stays
`Processed` across report passes), never displays a `Processed` result,
and a fix pass leaves every `Processed` result `Processed` — the state
is terminal. -/
theorem c9_processed_terminal (rs : List MoveResult) (fs : Fs)
    (ps : Policies) :
    ((reportResults rs).1.map MoveResult.status =
      rs.map (fun r =>
        if r.status ∈ recoverableErrors then r.status else .processed)) ∧
    (∀ r ∈ (reportResults rs).2, r.status ≠ .processed) ∧
    List.Forall₂ (fun r r2 => r.status = .processed → r2.status = .processed)
      rs (fixErrors fs ps rs).2 :=
  ⟨reportResults_map_status rs, reportResults_disp rs,
    fixErrors_processed fs ps rs⟩

/-- C9, witness at a concrete one-result list. -/
theorem c9_witness :
    (reportResults [rStale]).1.map MoveResult.status =
      [rStale].map (fun r =>
        if r.status ∈ recoverableErrors then r.status else .processed) :=
  (c9_processed_terminal [rStale] fsLib {}).1

/-- C10: for a SingleFile job whose destination equals its source and
whose source file exists, `overwrite()` first unlinks that path, then
the subsequent `shutil.move` raises `FileNotFoundError`; afterwards the
file exists at neither source nor destination — the content is lost. -/
theorem c10_self_destination_loses_file (fs : Fs) (j : VideoJob) (p : Path)
    (hs : j.source = p) (hd : j.destination = some p)
    (hf : Fs.isFile fs p = true) :
    Video.overwrite fs j = (Fs.removeExact fs p, some .fileNotFoundError) ∧
    Fs.pathExists (Fs.removeExact fs p) p = false := by
  have hex : Fs.pathExists fs p = true := isFile_pathExists fs p hf
  have hval : Video.validate fs j = none := by
    unfold Video.validate
    rw [hs, if_neg (not_not_intro hex), if_neg (not_not_intro hf)]
  have hgone : Fs.lookup (Fs.removeExact fs p) p = none :=
    lookup_removeExact_self fs p
  have hex1 : Fs.pathExists (Fs.removeExact fs p) p = false := by
    simp [Fs.pathExists, hgone]
  have hdir1 : Fs.isDir (Fs.removeExact fs p) p = false := by
    simp [Fs.isDir, hgone]
  refine ⟨?_, hex1⟩
  simp [Video.overwrite, hval, hd, hs, hf, Fs.unlink, seqFs, Fs.shutilMove,
    hdir1, Fs.osRename, hex1]

/-- C10, witness: the concrete self-destination job on `s`. -/
theorem c10_witness :
    Video.overwrite fsSelf jSelf =
      (Fs.removeExact fsSelf ["s"], some .fileNotFoundError) ∧
    Fs.pathExists (Fs.removeExact fsSelf ["s"]) ["s"] = false :=
  c10_self_destination_loses_file fsSelf jSelf ["s"] rfl rfl (by decide)

end FileSortingHat
